import Mathlib

/-!
Verification development for the session-configuration and event-translation
layer of the recipe-finder repository (source file src/workflow/orchestrator.ts).

The embedding models:
- the process environment as an association list of variable bindings, so the
  containerized/local decision is a pure function of an injected snapshot;
- engine messages (RawMessage) structurally: an optional inner message carrying
  optional content blocks and an optional usage snapshot, plus an optional
  terminal result string (None models an absent field, some "" an empty one);
- the async generator streamAgent as a function from the finite message
  sequence produced by the engine stream, together with how that stream ends
  (normal end, or a fault value raised after the listed messages), to the pair
  of the emitted event list and the propagated fault.
-/

/-- One content block of an assistant message. Absent text and name fields are
modelled as the empty string, which is exactly what the JS truthiness checks
in the source treat the same as an absent field. -/
structure ContentBlock where
  type : String
  text : String
  name : String
deriving DecidableEq

/-- Token-usage snapshot carried by a message (message.usage in the source);
each counter may be absent. -/
structure UsageSnapshot where
  input_tokens : Option Nat
  output_tokens : Option Nat
deriving DecidableEq

/-- Inner message object (message.message in the source): optional content
block list and optional usage snapshot. -/
structure InnerMessage where
  content : Option (List ContentBlock)
  usage : Option UsageSnapshot
deriving DecidableEq

/-- Engine message as inspected by streamAgent: a type tag, an optional inner
message, and an optional terminal result field. -/
structure RawMessage where
  type : String
  message : Option InnerMessage
  result : Option String
deriving DecidableEq

/-- The normalized event protocol emitted by the adapter. -/
inductive NormalizedEvent where
  | Text (content : String)
  | ToolInvocation (name : String)
  | Usage (input : Nat) (output : Nat)
  | Result (content : String)
  | Done
deriving DecidableEq

/-- Baseline launch arguments (baseArgs in buildChromeDevToolsArgs). -/
def baseArgs : List String :=
  ["-y", "chrome-devtools-mcp@latest", "--headless", "--isolated",
   "--no-category-emulation", "--no-category-performance", "--no-category-network"]

/-- Environment-sensitive launch arguments (buildChromeDevToolsArgs in the
source): the container branch is taken exactly when the CHROME_PATH variable
equals /usr/bin/chromium, and appends the executable-path override and the
four chrome sandbox/stability flags to the baseline. -/
def buildChromeDevToolsArgs (env : List (String × String)) : List String :=
  let isContainer := env.lookup "CHROME_PATH" == some "/usr/bin/chromium"
  if isContainer then
    baseArgs ++ ["--executable-path=/usr/bin/chromium", "--chrome-arg=--no-sandbox",
      "--chrome-arg=--disable-setuid-sandbox", "--chrome-arg=--disable-dev-shm-usage",
      "--chrome-arg=--disable-gpu"]
  else
    baseArgs

/-- Launch descriptor for the automation subprocess. -/
structure McpServerConfig where
  type : String
  command : String
  args : List String
deriving DecidableEq

/-- CHROME_DEVTOOLS_MCP_CONFIG in the source, as a function of the injected
environment snapshot instead of the ambient process environment. -/
def CHROME_DEVTOOLS_MCP_CONFIG (env : List (String × String)) : McpServerConfig :=
  { type := "stdio", command := "npx", args := buildChromeDevToolsArgs env }

/-- The fixed allow-list of tool capability identifiers (ALLOWED_TOOLS). -/
def ALLOWED_TOOLS : List String :=
  ["mcp__chrome-devtools__click",
   "mcp__chrome-devtools__fill",
   "mcp__chrome-devtools__fill_form",
   "mcp__chrome-devtools__hover",
   "mcp__chrome-devtools__press_key",
   "mcp__chrome-devtools__navigate_page",
   "mcp__chrome-devtools__new_page",
   "mcp__chrome-devtools__list_pages",
   "mcp__chrome-devtools__select_page",
   "mcp__chrome-devtools__close_page",
   "mcp__chrome-devtools__wait_for",
   "mcp__chrome-devtools__take_screenshot",
   "mcp__chrome-devtools__take_snapshot"]

/-- SYSTEM_PROMPT in the source is a long fixed block of natural-language
behavioral instructions. Its content is static policy text, out of scope for
this core; it is abbreviated here to its opening sentence, and no theorem
below depends on its content, only on the fact that it is a fixed string. -/
def SYSTEM_PROMPT : String :=
  "You are a Recipe Finder agent that helps users discover and retrieve recipes from AllRecipes.com."

/-- Session options passed to the engine (the Options object built by
getOptions). mcpServers is None when the spread clause attaches nothing. -/
structure Options where
  env : List (String × String)
  systemPrompt : String
  model : String
  allowedTools : List String
  maxTurns : Nat
  mcpServers : Option (List (String × McpServerConfig))
deriving DecidableEq

/-- getOptions in the source, with the ambient process environment passed
explicitly: forwards the environment, fixes the instructions and the model,
attaches the allow-list and the turn bound, and attaches the automation
subprocess launch specification under the fixed server key exactly when
standalone is true. -/
def getOptions (env : List (String × String)) (standalone : Bool) : Options :=
  { env := env
    systemPrompt := SYSTEM_PROMPT
    model := "haiku"
    allowedTools := ALLOWED_TOOLS
    maxTurns := 50
    mcpServers :=
      if standalone then some [("chrome-devtools", CHROME_DEVTOOLS_MCP_CONFIG env)] else none }

/-- The options streamAgent passes to the engine: getOptions with
standalone set to true (line 164 of the source). -/
def streamAgentOptions (env : List (String × String)) : Options :=
  getOptions env true

/-- First per-block check of the source loop: a block of type text whose text
field is truthy (non-empty) yields a Text event. -/
def textEventOfBlock (b : ContentBlock) : Option NormalizedEvent :=
  if b.type == "text" && b.text != "" then some (.Text b.text) else none

/-- Second per-block check of the source loop: a block of type tool_use yields
a ToolInvocation event carrying its name. -/
def toolEventOfBlock (b : ContentBlock) : Option NormalizedEvent :=
  if b.type == "tool_use" then some (.ToolInvocation b.name) else none

/-- The block list the two assistant-message scans run over: present exactly
when the message type is assistant and the inner content field is present
(an absent inner message or content field contributes no blocks, matching the
optional-chaining guard in the source). -/
def blocksOf (m : RawMessage) : List ContentBlock :=
  if m.type == "assistant" then
    match m.message with
    | some im => im.content.getD []
    | none => []
  else []

/-- Usage classification of one message: a present usage snapshot yields one
Usage event, defaulting each absent counter to zero. -/
def usageEvents (m : RawMessage) : List NormalizedEvent :=
  match m.message with
  | some im =>
    match im.usage with
    | some u => [.Usage (u.input_tokens.getD 0) (u.output_tokens.getD 0)]
    | none => []
  | none => []

/-- Result classification of one message: a present, non-empty result field
yields one Result event. -/
def resultEvents (m : RawMessage) : List NormalizedEvent :=
  match m.result with
  | some r => if r != "" then [.Result r] else []
  | none => []

/-- All events streamAgent emits for one message, in emission order: the text
scan over the blocks, then the tool-invocation scan over the same blocks, then
the usage check, then the result check. -/
def msgEvents (m : RawMessage) : List NormalizedEvent :=
  (blocksOf m).filterMap textEventOfBlock
    ++ (blocksOf m).filterMap toolEventOfBlock
    ++ usageEvents m
    ++ resultEvents m

/-- streamAgent as a function of the engine stream it iterates: the stream
yields msgs and then either closes normally (fault = none), after which the
generator emits the final Done, or raises a fault, which the generator
propagates unchanged without emitting Done. The returned pair is the emitted
event sequence and the propagated fault. -/
def streamAgent (msgs : List RawMessage) (fault : Option String) :
    List NormalizedEvent × Option String :=
  match fault with
  | none => ((msgs.map msgEvents).flatten ++ [.Done], none)
  | some e => ((msgs.map msgEvents).flatten, some e)

/-- Helper constructor: an assistant message carrying the given blocks and no
usage or result field. -/
def mkAssistantMessage (bs : List ContentBlock) : RawMessage :=
  { type := "assistant", message := some { content := some bs, usage := none }, result := none }

/-- Helper constructor: a text block with the given text. -/
def textBlock (t : String) : ContentBlock :=
  { type := "text", text := t, name := "" }

/-- Helper constructor: a tool-use block with the given tool name. -/
def toolUseBlock (n : String) : ContentBlock :=
  { type := "tool_use", text := "", name := n }

/-- Kind predicate: is this a Text event. -/
def NormalizedEvent.isText : NormalizedEvent → Bool
  | .Text _ => true
  | _ => false

/-- Kind predicate: is this a ToolInvocation event. -/
def NormalizedEvent.isTool : NormalizedEvent → Bool
  | .ToolInvocation _ => true
  | _ => false

/-- Kind predicate: is this a Usage event. -/
def NormalizedEvent.isUsage : NormalizedEvent → Bool
  | .Usage _ _ => true
  | _ => false

/-- Kind predicate: is this a Result event. -/
def NormalizedEvent.isResult : NormalizedEvent → Bool
  | .Result _ => true
  | _ => false

/-- Every event produced by the text scan is a Text event. -/
lemma textEventOfBlock_shape {b : ContentBlock} {e : NormalizedEvent}
    (h : textEventOfBlock b = some e) : ∃ s, e = NormalizedEvent.Text s := by
  unfold textEventOfBlock at h
  split at h
  · exact ⟨b.text, (Option.some.inj h).symm⟩
  · cases h

/-- Every event produced by the tool scan is a ToolInvocation event. -/
lemma toolEventOfBlock_shape {b : ContentBlock} {e : NormalizedEvent}
    (h : toolEventOfBlock b = some e) : ∃ s, e = NormalizedEvent.ToolInvocation s := by
  unfold toolEventOfBlock at h
  split at h
  · exact ⟨b.name, (Option.some.inj h).symm⟩
  · cases h

lemma mem_textScan {bs : List ContentBlock} {e : NormalizedEvent}
    (h : e ∈ bs.filterMap textEventOfBlock) : ∃ s, e = NormalizedEvent.Text s := by
  rw [List.mem_filterMap] at h
  obtain ⟨b, _, hb⟩ := h
  exact textEventOfBlock_shape hb

lemma mem_toolScan {bs : List ContentBlock} {e : NormalizedEvent}
    (h : e ∈ bs.filterMap toolEventOfBlock) : ∃ s, e = NormalizedEvent.ToolInvocation s := by
  rw [List.mem_filterMap] at h
  obtain ⟨b, _, hb⟩ := h
  exact toolEventOfBlock_shape hb

lemma mem_usageEvents {m : RawMessage} {e : NormalizedEvent} (h : e ∈ usageEvents m) :
    ∃ a b, e = NormalizedEvent.Usage a b := by
  rcases hm : m.message with _ | im
  · simp [usageEvents, hm] at h
  · rcases hu : im.usage with _ | u
    · simp [usageEvents, hm, hu] at h
    · simp [usageEvents, hm, hu] at h
      exact ⟨_, _, h⟩

lemma mem_resultEvents {m : RawMessage} {e : NormalizedEvent} (h : e ∈ resultEvents m) :
    ∃ s, e = NormalizedEvent.Result s := by
  rcases hm : m.result with _ | r
  · simp [resultEvents, hm] at h
  · rw [resultEvents, hm] at h
    split at h
    · simp at h
      exact ⟨_, h.2⟩
    · cases h

/-- A filter by a predicate false on every member is empty. -/
lemma filter_eq_nil_of {α : Type} {p : α → Bool} {l : List α}
    (h : ∀ e ∈ l, p e = false) : l.filter p = [] := by
  induction l with
  | nil => rfl
  | cons a t ih =>
    rw [List.filter_cons, h a (List.mem_cons_self a t)]
    simpa using ih fun e he => h e (List.mem_cons_of_mem a he)

/-- A filter by a predicate true on every member is the whole list. -/
lemma filter_eq_self_of {α : Type} {p : α → Bool} {l : List α}
    (h : ∀ e ∈ l, p e = true) : l.filter p = l := by
  induction l with
  | nil => rfl
  | cons a t ih =>
    rw [List.filter_cons, h a (List.mem_cons_self a t)]
    simpa using ih fun e he => h e (List.mem_cons_of_mem a he)

lemma filter_textScan_eq_nil {p : NormalizedEvent → Bool}
    (hp : ∀ s, p (NormalizedEvent.Text s) = false) (bs : List ContentBlock) :
    (bs.filterMap textEventOfBlock).filter p = [] :=
  filter_eq_nil_of fun e he => by obtain ⟨s, rfl⟩ := mem_textScan he; exact hp s

lemma filter_toolScan_eq_nil {p : NormalizedEvent → Bool}
    (hp : ∀ s, p (NormalizedEvent.ToolInvocation s) = false) (bs : List ContentBlock) :
    (bs.filterMap toolEventOfBlock).filter p = [] :=
  filter_eq_nil_of fun e he => by obtain ⟨s, rfl⟩ := mem_toolScan he; exact hp s

lemma filter_usageEvents_eq_nil {p : NormalizedEvent → Bool}
    (hp : ∀ a b, p (NormalizedEvent.Usage a b) = false) (m : RawMessage) :
    (usageEvents m).filter p = [] :=
  filter_eq_nil_of fun e he => by obtain ⟨a, b, rfl⟩ := mem_usageEvents he; exact hp a b

lemma filter_resultEvents_eq_nil {p : NormalizedEvent → Bool}
    (hp : ∀ s, p (NormalizedEvent.Result s) = false) (m : RawMessage) :
    (resultEvents m).filter p = [] :=
  filter_eq_nil_of fun e he => by obtain ⟨s, rfl⟩ := mem_resultEvents he; exact hp s

/-- Within the events of one message, filtering for Usage leaves exactly the
usage segment. -/
lemma filter_isUsage_msgEvents (m : RawMessage) :
    (msgEvents m).filter NormalizedEvent.isUsage = usageEvents m := by
  unfold msgEvents
  rw [List.filter_append, List.filter_append, List.filter_append,
    filter_textScan_eq_nil (fun s => rfl), filter_toolScan_eq_nil (fun s => rfl),
    filter_resultEvents_eq_nil (fun s => rfl),
    filter_eq_self_of (fun e he => by obtain ⟨a, b, rfl⟩ := mem_usageEvents he; rfl)]
  simp

/-- Within the events of one message, filtering for Result leaves exactly the
result segment. -/
lemma filter_isResult_msgEvents (m : RawMessage) :
    (msgEvents m).filter NormalizedEvent.isResult = resultEvents m := by
  unfold msgEvents
  rw [List.filter_append, List.filter_append, List.filter_append,
    filter_textScan_eq_nil (fun s => rfl), filter_toolScan_eq_nil (fun s => rfl),
    filter_usageEvents_eq_nil (fun a b => rfl),
    filter_eq_self_of (fun e he => by obtain ⟨s, rfl⟩ := mem_resultEvents he; rfl)]
  simp

/-- No message ever contributes a Done event; Done only marks stream end. -/
lemma done_not_mem_msgEvents (m : RawMessage) : NormalizedEvent.Done ∉ msgEvents m := by
  intro h
  unfold msgEvents at h
  rcases List.mem_append.1 h with h | h
  · rcases List.mem_append.1 h with h | h
    · rcases List.mem_append.1 h with h | h
      · obtain ⟨s, hs⟩ := mem_textScan h
        cases hs
      · obtain ⟨s, hs⟩ := mem_toolScan h
        cases hs
    · obtain ⟨a, b, hs⟩ := mem_usageEvents h
      cases hs
  · obtain ⟨s, hs⟩ := mem_resultEvents h
    cases hs

lemma done_not_mem_flatten (msgs : List RawMessage) :
    NormalizedEvent.Done ∉ (msgs.map msgEvents).flatten := by
  intro h
  rw [List.mem_flatten] at h
  obtain ⟨l, hl, hd⟩ := h
  rw [List.mem_map] at hl
  obtain ⟨m, _, rfl⟩ := hl
  exact done_not_mem_msgEvents m hd

/-- The two scans of an assistant message with blocks bs and no usage or
result field: text-scan events first, then tool-scan events. -/
lemma msgEvents_mkAssistant (bs : List ContentBlock) :
    msgEvents (mkAssistantMessage bs) =
      bs.filterMap textEventOfBlock ++ bs.filterMap toolEventOfBlock := by
  simp [msgEvents, mkAssistantMessage, blocksOf, usageEvents, resultEvents]

/-- Claim C1: for every finite message sequence consumed without a fault, the
emitted event sequence ends with exactly one Done event and no event occurs
after Done; the empty stream produces exactly the singleton Done sequence. -/
theorem streamAgent_done_terminal :
    (∀ msgs : List RawMessage, ∃ pre,
      (streamAgent msgs none).1 = pre ++ [NormalizedEvent.Done] ∧
        NormalizedEvent.Done ∉ pre) ∧
    streamAgent [] none = ([NormalizedEvent.Done], none) := by
  constructor
  · intro msgs
    exact ⟨(msgs.map msgEvents).flatten, rfl, done_not_mem_flatten msgs⟩
  · rfl

/-- Claim C2 counterexample: for an assistant message whose block list is a
tool-invocation block named click followed by a text block Hello, the emitted
events do not follow the block-list order: the Text event is emitted first,
so the claimed block-order sequence is not produced. -/
theorem msgEvents_block_order_counterexample :
    msgEvents (mkAssistantMessage [toolUseBlock "click", textBlock "Hello"]) =
      [NormalizedEvent.Text "Hello", NormalizedEvent.ToolInvocation "click"] ∧
    msgEvents (mkAssistantMessage [toolUseBlock "click", textBlock "Hello"]) ≠
      [NormalizedEvent.ToolInvocation "click", NormalizedEvent.Text "Hello"] := by
  constructor
  · decide
  · decide

/-- Claim C2 (amended): every block of an assistant message is inspected for
both the text shape and the tool-invocation shape (both scans run over the
whole block list), with all text-scan events emitted before the tool-scan
events and each scan preserving block-list order; in particular a text block
Hello followed by a tool-invocation block click yields Text Hello then
ToolInvocation click. -/
theorem msgEvents_two_scans :
    (∀ bs : List ContentBlock,
      msgEvents (mkAssistantMessage bs) =
        bs.filterMap textEventOfBlock ++ bs.filterMap toolEventOfBlock) ∧
    msgEvents (mkAssistantMessage [textBlock "Hello", toolUseBlock "click"]) =
      [NormalizedEvent.Text "Hello", NormalizedEvent.ToolInvocation "click"] := by
  constructor
  · exact msgEvents_mkAssistant
  · decide

/-- Claim C3: when the CHROME_PATH variable equals /usr/bin/chromium the
launch arguments are the baseline followed by exactly the five container
additions (executable-path override and four sandbox/stability flags); for
every other environment, including one without the variable, they are exactly
the baseline flags. -/
theorem buildChromeDevToolsArgs_spec (env : List (String × String)) :
    (env.lookup "CHROME_PATH" = some "/usr/bin/chromium" →
      buildChromeDevToolsArgs env =
        baseArgs ++ ["--executable-path=/usr/bin/chromium", "--chrome-arg=--no-sandbox",
          "--chrome-arg=--disable-setuid-sandbox", "--chrome-arg=--disable-dev-shm-usage",
          "--chrome-arg=--disable-gpu"] ∧
      (buildChromeDevToolsArgs env).length = baseArgs.length + 5) ∧
    (env.lookup "CHROME_PATH" ≠ some "/usr/bin/chromium" →
      buildChromeDevToolsArgs env = baseArgs) := by
  constructor
  · intro h
    have hb : (env.lookup "CHROME_PATH" == some "/usr/bin/chromium") = true := by
      rw [h]
      rfl
    constructor
    · rw [buildChromeDevToolsArgs]
      simp only [hb]
      rfl
    · rw [buildChromeDevToolsArgs]
      simp only [hb]
      rfl
  · intro h
    have hb : (env.lookup "CHROME_PATH" == some "/usr/bin/chromium") = false := by
      cases hc : env.lookup "CHROME_PATH" == some "/usr/bin/chromium"
      · rfl
      · exact absurd (eq_of_beq hc) h
    rw [buildChromeDevToolsArgs]
    simp only [hb]
    rfl

/-- Claim C3 witness: the container branch at a one-binding environment and
the local branch at the empty environment. -/
theorem buildChromeDevToolsArgs_spec_witness :
    (buildChromeDevToolsArgs [("CHROME_PATH", "/usr/bin/chromium")] =
      baseArgs ++ ["--executable-path=/usr/bin/chromium", "--chrome-arg=--no-sandbox",
        "--chrome-arg=--disable-setuid-sandbox", "--chrome-arg=--disable-dev-shm-usage",
        "--chrome-arg=--disable-gpu"]) ∧
    buildChromeDevToolsArgs [] = baseArgs := by
  refine ⟨((buildChromeDevToolsArgs_spec [("CHROME_PATH", "/usr/bin/chromium")]).1 (by decide)).1, ?_⟩
  exact (buildChromeDevToolsArgs_spec []).2 (by decide)

/-- Claim C4: when the stream raises a fault after yielding its messages, the
produced sequence is exactly the fault-free event prefix without any Done
marker, and the fault propagates unchanged; in particular one message
yielding Text partial followed by a fault produces exactly that Text event
together with the unchanged fault. -/
theorem streamAgent_fault_propagation :
    (∀ (msgs : List RawMessage) (e : String),
      (streamAgent msgs none).1 = (streamAgent msgs (some e)).1 ++ [NormalizedEvent.Done] ∧
      NormalizedEvent.Done ∉ (streamAgent msgs (some e)).1 ∧
      (streamAgent msgs (some e)).2 = some e) ∧
    streamAgent [mkAssistantMessage [textBlock "partial"]] (some "engine fault") =
      ([NormalizedEvent.Text "partial"], some "engine fault") := by
  constructor
  · intro msgs e
    exact ⟨rfl, done_not_mem_flatten msgs, rfl⟩
  · decide

/-- Claim C5: the allow-list is the fixed set of exactly 13 distinct
capability identifiers, and every configuration read returns the same
identifiers regardless of the environment or the standalone flag. -/
theorem ALLOWED_TOOLS_fixed :
    ALLOWED_TOOLS.length = 13 ∧ ALLOWED_TOOLS.Nodup ∧
    ALLOWED_TOOLS =
      ["mcp__chrome-devtools__click", "mcp__chrome-devtools__fill",
       "mcp__chrome-devtools__fill_form", "mcp__chrome-devtools__hover",
       "mcp__chrome-devtools__press_key", "mcp__chrome-devtools__navigate_page",
       "mcp__chrome-devtools__new_page", "mcp__chrome-devtools__list_pages",
       "mcp__chrome-devtools__select_page", "mcp__chrome-devtools__close_page",
       "mcp__chrome-devtools__wait_for", "mcp__chrome-devtools__take_screenshot",
       "mcp__chrome-devtools__take_snapshot"] ∧
    ∀ (env : List (String × String)) (standalone : Bool),
      (getOptions env standalone).allowedTools = ALLOWED_TOOLS := by
  refine ⟨rfl, by decide, rfl, fun env standalone => rfl⟩

/-- Claim C6: streamAgent opens its session with the standalone options:
the subprocess launch specification is attached under the fixed server key
chrome-devtools together with the tool allow-list, the turn bound is 50 and
positive, and the model selector is fixed; a non-standalone configuration
request attaches no subprocess specification. -/
theorem streamAgent_standalone_options (env : List (String × String)) :
    (streamAgentOptions env).mcpServers =
        some [("chrome-devtools", CHROME_DEVTOOLS_MCP_CONFIG env)] ∧
    (streamAgentOptions env).allowedTools = ALLOWED_TOOLS ∧
    (streamAgentOptions env).maxTurns = 50 ∧
    0 < (streamAgentOptions env).maxTurns ∧
    (streamAgentOptions env).model = "haiku" ∧
    (getOptions env false).mcpServers = none := by
  exact ⟨rfl, rfl, rfl, Nat.succ_pos 49, rfl, rfl⟩

/-- Claim C7: a message carrying a usage snapshot contributes exactly one
Usage event, its counters taken from the snapshot with absent counters
defaulting to zero, in addition to whatever content-block events the same
message yields; the concrete snapshot of 10 input and 5 output tokens with no
content blocks yields exactly Usage 10 5. -/
theorem msgEvents_usage :
    (∀ (t : String) (c : Option (List ContentBlock)) (u : UsageSnapshot) (r : Option String),
      (msgEvents ⟨t, some ⟨c, some u⟩, r⟩).filter NormalizedEvent.isUsage =
        [NormalizedEvent.Usage (u.input_tokens.getD 0) (u.output_tokens.getD 0)]) ∧
    msgEvents ⟨"assistant", some ⟨none, some ⟨some 10, some 5⟩⟩, none⟩ =
      [NormalizedEvent.Usage 10 5] := by
  constructor
  · intro t c u r
    rw [filter_isUsage_msgEvents]
    rfl
  · decide

/-- Claim C8: a message with no content blocks, no usage snapshot and no
non-empty result field contributes no event, and the run over a stream
containing it equals the run over the stream without it (processing
continues, no fault is introduced). -/
theorem msgEvents_unrecognized (m : RawMessage)
    (hc : ∀ im, m.message = some im → im.content.getD [] = [])
    (hu : ∀ im, m.message = some im → im.usage = none)
    (hr : ∀ r, m.result = some r → r = "") :
    msgEvents m = [] ∧
    ∀ pre post : List RawMessage,
      streamAgent (pre ++ m :: post) none = streamAgent (pre ++ post) none := by
  have hb : blocksOf m = [] := by
    rw [blocksOf]
    split
    · rcases hm : m.message with _ | im
      · rfl
      · exact hc im hm
    · rfl
  have hue : usageEvents m = [] := by
    rcases hm : m.message with _ | im
    · simp [usageEvents, hm]
    · simp [usageEvents, hm, hu im hm]
  have hre : resultEvents m = [] := by
    rcases hm : m.result with _ | r
    · simp [resultEvents, hm]
    · simp [resultEvents, hm, hr r hm]
  have hev : msgEvents m = [] := by
    rw [msgEvents, hb, hue, hre]
    rfl
  refine ⟨hev, fun pre post => ?_⟩
  simp [streamAgent, hev]

/-- Claim C8 witness: a system-type message with no inner message and no
result field is skipped and leaves the run unchanged. -/
theorem msgEvents_unrecognized_witness :
    msgEvents { type := "system", message := none, result := none } = [] ∧
    streamAgent [{ type := "system", message := none, result := none }] none =
      streamAgent [] none := by
  have h := msgEvents_unrecognized { type := "system", message := none, result := none }
    (fun im him => nomatch him) (fun im him => nomatch him) (fun r hrr => nomatch hrr)
  refine ⟨h.1, ?_⟩
  have h2 := h.2 [] []
  simpa using h2

/-- Claim C9: a message contributes a Result event carrying its result field
exactly when that field is present and non-empty; a present empty result
field, like an absent one, contributes no Result event. -/
theorem msgEvents_result (t : String) (inner : Option InnerMessage) (r : String) :
    ((msgEvents { type := t, message := inner, result := some r }).filter
        NormalizedEvent.isResult =
      if r != "" then [NormalizedEvent.Result r] else []) ∧
    (msgEvents { type := t, message := inner, result := none }).filter
        NormalizedEvent.isResult = [] := by
  constructor
  · rw [filter_isResult_msgEvents]
    rfl
  · rw [filter_isResult_msgEvents]
    rfl

/-- Claim C10: because the block list of an assistant message is scanned
twice, every Text event of the message precedes every ToolInvocation event of
the same message whatever the block order, and within each kind the events
follow block-list order: the message events are exactly the Text events
followed by the ToolInvocation events, each list in block order. -/
theorem msgEvents_text_before_tool (bs : List ContentBlock) :
    (msgEvents (mkAssistantMessage bs)).filter NormalizedEvent.isText ++
        (msgEvents (mkAssistantMessage bs)).filter NormalizedEvent.isTool =
      msgEvents (mkAssistantMessage bs) ∧
    (msgEvents (mkAssistantMessage bs)).filter NormalizedEvent.isText =
      bs.filterMap textEventOfBlock ∧
    (msgEvents (mkAssistantMessage bs)).filter NormalizedEvent.isTool =
      bs.filterMap toolEventOfBlock := by
  have hT : (msgEvents (mkAssistantMessage bs)).filter NormalizedEvent.isText =
      bs.filterMap textEventOfBlock := by
    rw [msgEvents_mkAssistant, List.filter_append,
      filter_eq_self_of (fun e he => by obtain ⟨s, rfl⟩ := mem_textScan he; rfl),
      filter_toolScan_eq_nil (fun s => rfl)]
    simp
  have hO : (msgEvents (mkAssistantMessage bs)).filter NormalizedEvent.isTool =
      bs.filterMap toolEventOfBlock := by
    rw [msgEvents_mkAssistant, List.filter_append,
      filter_textScan_eq_nil (fun s => rfl),
      filter_eq_self_of (fun e he => by obtain ⟨s, rfl⟩ := mem_toolScan he; rfl)]
    simp
  exact ⟨by rw [hT, hO, msgEvents_mkAssistant], hT, hO⟩
